import Mathlib

/-!
Shallow embedding of the stationary stochastic bandit environments from
`tf_agents/bandits/environments/stationary_stochastic_py_environment.py`
(`StationaryStochasticPyEnvironment`, called FixedArmEnvironment below) and
`tf_agents/bandits/environments/stationary_stochastic_per_arm_py_environment.py`
(`StationaryStochasticPerArmPyEnvironment`, called PerArmEnvironment below).

Modelling conventions:
* numpy 1-D arrays of numbers are `List Int`; 2-D arrays are `List (List Int)`;
  3-D arrays are `List (List (List Int))`.
* Reward, constraint and arm-count values are `Int` (the code treats them as
  opaque numbers; stacking a list of per-element scalars gives a 1-D batch).
* Python / numpy exceptions are the `PyErr` type (`ValueError` / `IndexError`).
* User-supplied stochastic sampling functions are modelled as streams
  `Nat → _` consumed at an explicit call counter held in the environment
  state, so that successive calls may return different values.
* Python (and numpy) indexing `xs[i]` with an integer `i` wraps negative
  indices by adding `len(xs)` and raises `IndexError` out of bounds; this is
  `pyGet` below.
-/

/-- A Python exception kind, distinguishing the two exception classes the
embedded code can raise itself: `ValueError` and `IndexError`. -/
inductive PyErr where
  | valueError
  | indexError
  deriving DecidableEq, Repr

/-- Python sequence indexing `xs[i]`: a negative index has `len(xs)` added to
it, then the index must be in `[0, len(xs))`, else `IndexError` is raised. -/
def pyGet (xs : List α) (i : Int) : Except PyErr α :=
  let j : Int := if i < 0 then i + xs.length else i
  if h : 0 ≤ j ∧ j.toNat < xs.length then .ok (xs.get ⟨j.toNat, h.2⟩)
  else .error .indexError

/-- The in-range predicate for Python indexing: `-(len) ≤ i < len`. -/
def pyInRange (n : Nat) (i : Int) : Prop := -(n : Int) ≤ i ∧ i < (n : Int)

instance (n : Nat) (i : Int) : Decidable (pyInRange n i) := by
  unfold pyInRange; infer_instance

/-- The natural-number index Python indexing resolves `i` to (negative
indices wrap by adding `n`). -/
def pyIdx (n : Nat) (i : Int) : Nat :=
  if i < 0 then (i + n).toNat else i.toNat

/-- `np.stack` on a list of scalars: raises `ValueError` on an empty list
("need at least one array to stack"), otherwise yields the 1-D batch. -/
def npStack1 (xs : List α) : Except PyErr (List α) :=
  if xs.isEmpty then .error .valueError else .ok xs

theorem pyIdx_lt {n : Nat} {i : Int} (h : pyInRange n i) : pyIdx n i < n := by
  rcases h with ⟨h1, h2⟩
  unfold pyIdx
  split <;> omega

theorem pyGet_eq_ok (xs : List α) (i : Int) (d : α) (h : pyInRange xs.length i) :
    pyGet xs i = .ok (xs.getD (pyIdx xs.length i) d) := by
  rcases h with ⟨h1, h2⟩
  by_cases hc : i < 0
  · simp only [pyGet, pyIdx, if_pos hc]
    rw [dif_pos ⟨by omega, by omega⟩]
    simp only [List.get_eq_getElem]
    rw [List.getD_eq_getElem xs d (by omega)]
  · simp only [pyGet, pyIdx, if_neg hc]
    rw [dif_pos ⟨by omega, by omega⟩]
    simp only [List.get_eq_getElem]
    rw [List.getD_eq_getElem xs d (by omega)]

theorem pyGet_eq_err (xs : List α) (i : Int) (h : ¬ pyInRange xs.length i) :
    pyGet xs i = .error .indexError := by
  unfold pyGet
  unfold pyInRange at h
  rw [dif_neg]
  intro ⟨h1, h2⟩
  apply h
  constructor <;> split at h1 <;> split at h2 <;> omega

/-! ## FixedArmEnvironment (`StationaryStochasticPyEnvironment`) -/

/-- The data of a constructed `StationaryStochasticPyEnvironment`: the stored
user callables and the batch size. The context-sampling function is a stream
indexed by its call number. -/
structure FixedArmEnv where
  contextSamplingFn : Nat → List (List Int)
  rewardFns : List (List Int → Int)
  constraintFns : Option (List (List Int → Int))
  batchSize : Nat

/-- The mutable instance state of a FixedArmEnvironment between calls: how
many times the context sampler was called, and `self._observation`. -/
structure FixedArmState where
  ctxCalls : Nat
  observation : List (List Int)

/-- The reward value returned by `_apply_action`: either the stacked reward
array, or (when constraint functions are configured) the dict
`{reward: ..., constraint: ...}`. -/
inductive FAReward where
  | plain (reward : List Int)
  | withConstraint (reward : List Int) (constraint : List Int)
  deriving DecidableEq, Repr

/-- `_observe`: `self._observation = self._context_sampling_fn()` and return
it. The call advances the sampler stream. -/
def FixedArmEnv.observe (env : FixedArmEnv) (s : FixedArmState) :
    List (List Int) × FixedArmState :=
  let obs := env.contextSamplingFn s.ctxCalls
  (obs, { ctxCalls := s.ctxCalls + 1, observation := obs })

/-- The list comprehension
`[fns[a](o) for a, o in zip(action, observation)]`: each element indexes the
function list by `a` with Python indexing, then applies it to `o`; the first
bad index raises. -/
def mapRewards (fns : List (List Int → Int)) :
    List (Int × List Int) → Except PyErr (List Int)
  | [] => .ok []
  | (a, o) :: rest =>
      match pyGet fns a with
      | .error e => .error e
      | .ok f =>
        match mapRewards fns rest with
        | .error e => .error e
        | .ok r => .ok (f o :: r)

/-- `_apply_action` of `StationaryStochasticPyEnvironment`: raises
`ValueError` when `len(action) != batch_size`; otherwise stacks
`reward_fns[a](o)` over `zip(action, observation)`, and likewise the
constraint functions when configured. The method body assigns no instance
attribute, so the state is returned unchanged. -/
def FixedArmEnv.applyAction (env : FixedArmEnv) (s : FixedArmState)
    (action : List Int) : Except PyErr FAReward × FixedArmState :=
  (if action.length ≠ env.batchSize then .error .valueError
   else
     let pairs := action.zip s.observation
     match mapRewards env.rewardFns pairs with
     | .error e => .error e
     | .ok rewardList =>
       match npStack1 rewardList with
       | .error e => .error e
       | .ok reward =>
         match env.constraintFns with
         | none => .ok (.plain reward)
         | some cfs =>
           match mapRewards cfs pairs with
           | .error e => .error e
           | .ok constraintList =>
             match npStack1 constraintList with
             | .error e => .error e
             | .ok constraint => .ok (.withConstraint reward constraint), s)

/-! ## PerArmEnvironment (`StationaryStochasticPerArmPyEnvironment`) -/

/-- `np.stack` on a list of 1-D rows: raises `ValueError` when the list is
empty or the rows do not all have the same length (numpy requires equal
shapes to stack); otherwise yields the 2-D batch. -/
def npStackRows (xs : List (List Int)) : Except PyErr (List (List Int)) :=
  match xs with
  | [] => .error .valueError
  | x :: rest =>
      if (x :: rest).all (fun r => r.length = x.length) then .ok (x :: rest)
      else .error .valueError

/-- Fuel-driven worker for `chunks`: structurally recursive on the fuel so
that the kernel can evaluate it. The fuel only needs to be at least the
length of the list. -/
def chunksFuel : Nat → Nat → List α → List (List α)
  | 0, _, _ => []
  | _ + 1, _, [] => []
  | _ + 1, 0, _ :: _ => []
  | fuel + 1, n + 1, x :: rest =>
      (x :: rest).take (n + 1) :: chunksFuel fuel (n + 1) ((x :: rest).drop (n + 1))

/-- Splits a list into consecutive chunks of size `n` (`n > 0`; the last
chunk may be shorter when `n` does not divide the length). -/
def chunks (n : Nat) (l : List α) : List (List α) :=
  chunksFuel l.length n l

/-- `np.reshape(list_of_rows, (b, m, -1))`: `np.asarray` requires the rows to
be homogeneous (equal lengths) — otherwise `ValueError`; the `-1` dimension is
inferred from the total element count, which must be divisible by `b * m`
(with `b * m > 0`), else `ValueError`; on success the flat data is regrouped
into `b` blocks of `m` rows of the inferred length. -/
def npReshape3 (samples : List (List Int)) (b m : Nat) :
    Except PyErr (List (List (List Int))) :=
  let d0 := (samples.headD []).length
  if samples.all (fun r => r.length = d0) then
    let flat := samples.flatten
    if b * m = 0 then .error .valueError
    else if flat.length % (b * m) ≠ 0 then .error .valueError
    else
      let d := flat.length / (b * m)
      if d = 0 then .ok (List.replicate b (List.replicate m ([] : List Int)))
      else .ok (chunks m (chunks d flat))
  else .error .valueError

/-- The data of a constructed `StationaryStochasticPerArmPyEnvironment`: the
stored user callables (sampling functions as call-indexed streams), the
maximum number of actions and the batch size. -/
structure PerArmEnv where
  globalContextSamplingFn : Nat → List Int
  armContextSamplingFn : Nat → List Int
  maxNumActions : Nat
  rewardFn : List Int → Int
  numActionsFn : Option (Nat → Int)
  batchSize : Nat

/-- The observation dict of the per-arm environment:
`{global: ..., per_arm: ...}`, plus `num_actions` when the arm-count
function is configured. -/
structure PerArmObs where
  global : List (List Int)
  perArm : List (List (List Int))
  numActions : Option (List Int)
  deriving DecidableEq, Repr

/-- The mutable instance state of a PerArmEnvironment between calls: call
counters for the three sampler streams and `self._observation`. -/
structure PerArmState where
  globalCalls : Nat
  armCalls : Nat
  numCalls : Nat
  observation : PerArmObs

/-- `_observe` of `StationaryStochasticPerArmPyEnvironment`:
stacks `batch_size` global samples, reshapes `batch_size * max_num_actions`
arm samples into `(batch_size, max_num_actions, -1)`, assigns
`self._observation = {global, per_arm}`; then, when `num_actions_fn` is set,
draws one count per batch element, clamps with `np.maximum(·, 1)` followed by
`np.minimum(·, max_num_actions)` and adds it under `num_actions`. The list
comprehensions run (advancing the call counters) before `np.stack`/
`np.reshape` can raise, and an exception leaves `self._observation`
unassigned. -/
def PerArmEnv.observe (env : PerArmEnv) (s : PerArmState) :
    Except PyErr PerArmObs × PerArmState :=
  let globalSamples := (List.range env.batchSize).map
    (fun i => env.globalContextSamplingFn (s.globalCalls + i))
  let s1 := { s with globalCalls := s.globalCalls + env.batchSize }
  match npStackRows globalSamples with
  | .error e => (.error e, s1)
  | .ok globalObs =>
    let armSamples := (List.range (env.batchSize * env.maxNumActions)).map
      (fun i => env.armContextSamplingFn (s1.armCalls + i))
    let s2 := { s1 with armCalls := s1.armCalls + env.batchSize * env.maxNumActions }
    match npReshape3 armSamples env.batchSize env.maxNumActions with
    | .error e => (.error e, s2)
    | .ok armObs =>
      let obs0 : PerArmObs := { global := globalObs, perArm := armObs, numActions := none }
      match env.numActionsFn with
      | none => (.ok obs0, { s2 with observation := obs0 })
      | some f =>
        let rawCounts := (List.range env.batchSize).map (fun i => f (s2.numCalls + i))
        let clamped := rawCounts.map (fun x => min (max x 1) (env.maxNumActions : Int))
        let obs : PerArmObs := { obs0 with numActions := some clamped }
        (.ok obs,
         { s2 with numCalls := s2.numCalls + env.batchSize, observation := obs })

/-- The advanced indexing `per_arm[range(batch_size), action, :]`, elementwise
over the paired index lists: for each pair `(b, a)` select row `b` of the
3-D array and then row `a` of that block (numpy integer indexing wraps
negative indices and raises `IndexError` out of bounds). -/
def fancyIndexPairs (perArm : List (List (List Int))) :
    List (Nat × Int) → Except PyErr (List (List Int))
  | [] => .ok []
  | (b, a) :: rest =>
      match pyGet perArm (b : Int) with
      | .error e => .error e
      | .ok block =>
        match pyGet block a with
        | .error e => .error e
        | .ok row =>
          match fancyIndexPairs perArm rest with
          | .error e => .error e
          | .ok rows => .ok (row :: rows)

/-- The list comprehension
`[reward_fn(np.concatenate((global_obs[b, :], arm_obs[b, :]))) for b in range(batch_size)]`. -/
def perArmRewards (rewardFn : List Int → Int) (globalObs armObs : List (List Int)) :
    List Nat → Except PyErr (List Int)
  | [] => .ok []
  | b :: rest =>
      match pyGet globalObs (b : Int) with
      | .error e => .error e
      | .ok g =>
        match pyGet armObs (b : Int) with
        | .error e => .error e
        | .ok ar =>
          match perArmRewards rewardFn globalObs armObs rest with
          | .error e => .error e
          | .ok rs => .ok (rewardFn (g ++ ar) :: rs)

/-- `_apply_action` of `StationaryStochasticPerArmPyEnvironment`: raises
`ValueError` when `action.shape[0] != batch_size`; otherwise gathers the
chosen arm rows by the advanced indexing
`per_arm[range(batch_size), action, :]`, applies the reward function to each
concatenation `global[b] ++ arm[b]` and stacks the results. The method body
assigns no instance attribute, so the state is returned unchanged. -/
def PerArmEnv.applyAction (env : PerArmEnv) (s : PerArmState)
    (action : List Int) : Except PyErr (List Int) × PerArmState :=
  (if action.length ≠ env.batchSize then .error .valueError
   else
     let globalObs := s.observation.global
     match fancyIndexPairs s.observation.perArm
         ((List.range env.batchSize).zip action) with
     | .error e => .error e
     | .ok armObs =>
       match perArmRewards env.rewardFn globalObs armObs
           (List.range env.batchSize) with
       | .error e => .error e
       | .ok rewardList => npStack1 rewardList, s)

/-! ## Construction (`__init__`) of both environments

To reason about which user-supplied callables construction invokes (and how
often), the `__init__` embeddings additionally return the ordered log of the
calls they made to user-supplied functions. -/

/-- A tag for one call to a user-supplied callable during FixedArmEnvironment
construction: the context-sampling function, the `i`-th reward function or
the `i`-th constraint function. -/
inductive FAFn where
  | ctx
  | rew (i : Nat)
  | con (i : Nat)
  deriving DecidableEq, Repr

/-- The specs a successful FixedArmEnvironment construction derives.
`observationSpec` is the shape of `example_observation[0]` (a 1-D row, so a
one-element shape); `actionMax` is the action spec's inclusive maximum
`len(reward_fns) - 1`; rewards/constraints are modelled as scalars, so
`rewardSpec`/`constraintSpec` are the scalar shape `[]`. -/
structure FASpecs where
  observationSpec : List Nat
  actionMax : Int
  rewardSpec : List Nat
  constraintSpec : Option (List Nat)
  deriving DecidableEq, Repr

/-- `__init__` of `StationaryStochasticPyEnvironment`, in source order:
build the action spec; call `context_sampling_fn()` once; derive the
observation spec from `example_observation[0]` (an `IndexError` when the
example batch is empty); raise `ValueError` when the example batch's outer
dimension differs from `batch_size`; call `reward_fns[0]` on
`example_observation[0]` to derive the reward spec; when constraint
functions are supplied, likewise call `constraint_fns[0]`. Returns the
derived specs (or the exception) together with the log of user-function
calls made. -/
def faInit (ctxFn : Nat → List (List Int)) (rewardFns : List (List Int → Int))
    (constraintFns : Option (List (List Int → Int))) (batchSize : Nat) :
    Except PyErr FASpecs × List FAFn :=
  let actionMax : Int := (rewardFns.length : Int) - 1
  let exampleObs := ctxFn 0
  let log1 : List FAFn := [FAFn.ctx]
  match pyGet exampleObs 0 with
  | .error e => (.error e, log1)
  | .ok firstRow =>
    if exampleObs.length ≠ batchSize then (.error .valueError, log1)
    else
      match pyGet rewardFns 0 with
      | .error e => (.error e, log1)
      | .ok f0 =>
        let _exampleReward := f0 firstRow
        let log2 := log1 ++ [FAFn.rew 0]
        let rewardSpec : List Nat := []
        match constraintFns with
        | none =>
            (.ok { observationSpec := [firstRow.length], actionMax := actionMax,
                   rewardSpec := rewardSpec, constraintSpec := none }, log2)
        | some cfs =>
            match pyGet cfs 0 with
            | .error e => (.error e, log2)
            | .ok c0 =>
                let _exampleConstraint := c0 firstRow
                let log3 := log2 ++ [FAFn.con 0]
                (.ok { observationSpec := [firstRow.length], actionMax := actionMax,
                       rewardSpec := rewardSpec, constraintSpec := some [] }, log3)

/-- A tag for one call to a user-supplied callable during PerArmEnvironment
construction: the global-context sampler, the arm-context sampler, the
arm-count function or the reward function. -/
inductive PAFn where
  | globalCtx
  | armCtx
  | numActs
  | rew
  deriving DecidableEq, Repr

/-- The specs a PerArmEnvironment construction derives: the `global` spec
(shape of one global sample), the `per_arm` spec (one arm-sample shape with
a `max_num_actions` outer dimension added), the optional bounded
`num_actions` spec `[1, max_num_actions]`, and the action spec's inclusive
maximum `max_num_actions - 1`. -/
structure PASpecs where
  globalSpec : List Nat
  perArmSpec : List Nat
  numActionsSpec : Option (Int × Int)
  actionMax : Int
  deriving DecidableEq, Repr

/-- `__init__` of `StationaryStochasticPerArmPyEnvironment`, in source
order: call `global_context_sampling_fn()` once and
`arm_context_sampling_fn()` once to derive the observation spec; when
`num_actions_fn` is supplied, call it once to fix the `num_actions` spec's
dtype; build the action spec. The reward function is not called. Cannot
raise. Returns the derived specs together with the log of user-function
calls made. -/
def paInit (globalFn : Nat → List Int) (armFn : Nat → List Int)
    (maxNumActions : Nat) (rewardFn : List Int → Int)
    (numActionsFn : Option (Nat → Int)) (batchSize : Nat) :
    Except PyErr PASpecs × List PAFn :=
  let g := globalFn 0
  let a := armFn 0
  let log1 : List PAFn := [PAFn.globalCtx, PAFn.armCtx]
  let globalSpec : List Nat := [g.length]
  let perArmSpec : List Nat := [maxNumActions, a.length]
  match numActionsFn with
  | none =>
      (.ok { globalSpec := globalSpec, perArmSpec := perArmSpec,
             numActionsSpec := none, actionMax := (maxNumActions : Int) - 1 },
       log1)
  | some f =>
      let _exampleCount := f 0
      let log2 := log1 ++ [PAFn.numActs]
      (.ok { globalSpec := globalSpec, perArmSpec := perArmSpec,
             numActionsSpec := some (1, (maxNumActions : Int)),
             actionMax := (maxNumActions : Int) - 1 },
       log2)

/-! ## Helper lemmas -/

theorem pyIdx_natCast (n b : Nat) : pyIdx n (b : Int) = b := by
  unfold pyIdx; split <;> omega

theorem pyInRange_natCast {n : Nat} (b : Nat) (h : b < n) :
    pyInRange n (b : Int) := by
  unfold pyInRange; omega

theorem pyIdx_nonneg {n : Nat} {i : Int} (h : 0 ≤ i) : pyIdx n i = i.toNat := by
  unfold pyIdx; split <;> omega

theorem getD_mem_of_lt (l : List α) (d : α) {n : Nat} (h : n < l.length) :
    l.getD n d ∈ l := by
  rw [List.getD_eq_getElem l d h]; exact List.getElem_mem h

theorem getD_map_of_lt (f : α → β) (l : List α) (d : β) (d' : α) {n : Nat}
    (h : n < l.length) : (l.map f).getD n d = f (l.getD n d') := by
  rw [List.getD_eq_getElem _ _ (by simpa using h), List.getD_eq_getElem _ _ h,
    List.getElem_map]

theorem getD_zip_of_lt (l₁ : List α) (l₂ : List β) (d : α × β) (d₁ : α) (d₂ : β)
    {n : Nat} (h₁ : n < l₁.length) (h₂ : n < l₂.length) :
    (l₁.zip l₂).getD n d = (l₁.getD n d₁, l₂.getD n d₂) := by
  have h : n < (l₁.zip l₂).length := by
    rw [List.length_zip]; exact lt_min h₁ h₂
  rw [List.getD_eq_getElem _ _ h, List.getElem_zip,
    List.getD_eq_getElem _ _ h₁, List.getD_eq_getElem _ _ h₂]

theorem getD_range_of_lt {n b : Nat} (d : Nat) (h : b < n) :
    (List.range n).getD b d = b := by
  rw [List.getD_eq_getElem _ _ (by simpa using h), List.getElem_range]

theorem getD_mem_zip (l₁ : List α) (l₂ : List β) (d₁ : α) (d₂ : β) {n : Nat}
    (h₁ : n < l₁.length) (h₂ : n < l₂.length) :
    (l₁.getD n d₁, l₂.getD n d₂) ∈ l₁.zip l₂ := by
  have h : n < (l₁.zip l₂).length := by
    rw [List.length_zip]; exact lt_min h₁ h₂
  rw [List.getD_eq_getElem _ _ h₁, List.getD_eq_getElem _ _ h₂, ← List.getElem_zip]
  exact List.getElem_mem h

theorem npStack1_ok (xs : List α) (h : xs ≠ []) : npStack1 xs = .ok xs := by
  simp [npStack1, h]

theorem npStackRows_ok (xs : List (List Int)) (d : Nat)
    (h : ∀ r ∈ xs, r.length = d) (hne : xs ≠ []) : npStackRows xs = .ok xs := by
  match xs with
  | [] => exact absurd rfl hne
  | x :: rest =>
      have hx : x.length = d := h x (by simp)
      simp only [npStackRows, if_pos]
      rw [if_pos]
      simp only [List.all_eq_true, decide_eq_true_eq]
      intro r hr
      rw [h r hr, hx]

theorem mapRewards_ok (fns : List (List Int → Int)) (pairs : List (Int × List Int))
    (h : ∀ p ∈ pairs, pyInRange fns.length p.1) :
    mapRewards fns pairs =
      .ok (pairs.map (fun p => fns.getD (pyIdx fns.length p.1) (fun _ => 0) p.2)) := by
  induction pairs with
  | nil => rfl
  | cons p rest ih =>
      obtain ⟨a, o⟩ := p
      simp only [mapRewards]
      rw [pyGet_eq_ok fns a (fun _ => 0) (h (a, o) (by simp)),
        ih (fun q hq => h q (List.mem_cons_of_mem _ hq))]
      simp

theorem mapRewards_err (fns : List (List Int → Int)) (pairs : List (Int × List Int))
    (h : ∃ p ∈ pairs, ¬ pyInRange fns.length p.1) :
    mapRewards fns pairs = .error .indexError := by
  induction pairs with
  | nil => simp at h
  | cons p rest ih =>
      obtain ⟨a, o⟩ := p
      by_cases hp : pyInRange fns.length a
      · have hrest : ∃ q ∈ rest, ¬ pyInRange fns.length q.1 := by
          rcases h with ⟨q, hq, hnq⟩
          rcases List.mem_cons.mp hq with h1 | h2
          · subst h1; exact absurd hp hnq
          · exact ⟨q, h2, hnq⟩
        simp only [mapRewards]
        rw [pyGet_eq_ok fns a (fun _ => 0) hp, ih hrest]
      · simp only [mapRewards]
        rw [pyGet_eq_err fns a hp]

theorem fancyIndexPairs_ok (perArm : List (List (List Int)))
    (pairs : List (Nat × Int))
    (h : ∀ p ∈ pairs, p.1 < perArm.length ∧
      pyInRange (perArm.getD p.1 []).length p.2) :
    fancyIndexPairs perArm pairs =
      .ok (pairs.map (fun p =>
        (perArm.getD p.1 []).getD (pyIdx (perArm.getD p.1 []).length p.2) [])) := by
  induction pairs with
  | nil => rfl
  | cons p rest ih =>
      obtain ⟨b, a⟩ := p
      obtain ⟨hb, ha⟩ := h (b, a) (by simp)
      have hb' : b < perArm.length := hb
      have ha' : pyInRange (perArm.getD b []).length a := ha
      simp only [fancyIndexPairs, pyGet_eq_ok perArm (b : Int) [] (pyInRange_natCast b hb'),
        pyIdx_natCast, pyGet_eq_ok (perArm.getD b []) a [] ha',
        ih (fun q hq => h q (List.mem_cons_of_mem _ hq)), List.map_cons]

theorem perArmRewards_ok (f : List Int → Int) (globalObs armObs : List (List Int))
    (l : List Nat) (h : ∀ b ∈ l, b < globalObs.length ∧ b < armObs.length) :
    perArmRewards f globalObs armObs l =
      .ok (l.map (fun b => f (globalObs.getD b [] ++ armObs.getD b []))) := by
  induction l with
  | nil => rfl
  | cons b rest ih =>
      obtain ⟨hg, ha⟩ := h b (by simp)
      simp only [perArmRewards, pyGet_eq_ok globalObs (b : Int) [] (pyInRange_natCast b hg),
        pyGet_eq_ok armObs (b : Int) [] (pyInRange_natCast b ha), pyIdx_natCast,
        ih (fun q hq => h q (List.mem_cons_of_mem _ hq)), List.map_cons]

theorem chunksFuel_nil (f n : Nat) : chunksFuel f n ([] : List α) = [] := by
  cases f with
  | zero => rfl
  | succ k => cases n <;> rfl

theorem chunksFuel_congr :
    ∀ (f1 : Nat) (l : List α) (n f2 : Nat), l.length ≤ f1 → l.length ≤ f2 →
      chunksFuel f1 n l = chunksFuel f2 n l := by
  intro f1
  induction f1 with
  | zero =>
      intro l n f2 h1 _
      have : l = [] := List.eq_nil_of_length_eq_zero (by omega)
      subst this
      rw [chunksFuel_nil, chunksFuel_nil]
  | succ k ih =>
      intro l n f2 h1 h2
      cases l with
      | nil => rw [chunksFuel_nil, chunksFuel_nil]
      | cons x rest =>
          cases f2 with
          | zero => simp at h2
          | succ j =>
              cases n with
              | zero => rfl
              | succ nn =>
                  simp only [chunksFuel]
                  rw [ih ((x :: rest).drop (nn + 1)) (nn + 1) j
                    (by simp only [List.length_drop, List.length_cons] at h1 ⊢; omega)
                    (by simp only [List.length_drop, List.length_cons] at h2 ⊢; omega)]

theorem chunks_nil (n : Nat) : chunks n ([] : List α) = [] := rfl

theorem chunks_cons_eq {m : Nat} (hm : 0 < m) (l : List α) (hl : l ≠ []) :
    chunks m l = l.take m :: chunks m (l.drop m) := by
  obtain ⟨mm, rfl⟩ : ∃ mm, m = mm + 1 := ⟨m - 1, by omega⟩
  cases l with
  | nil => exact absurd rfl hl
  | cons x rest =>
      show chunksFuel (x :: rest).length (mm + 1) (x :: rest) = _
      simp only [List.length_cons, chunksFuel]
      rw [chunksFuel_congr rest.length ((x :: rest).drop (mm + 1)) (mm + 1)
        ((x :: rest).drop (mm + 1)).length
        (by simp only [List.length_drop, List.length_cons]; omega) le_rfl]
      rfl

theorem flatten_chunks {m : Nat} (hm : 0 < m) (l : List α) :
    (chunks m l).flatten = l := by
  have key : ∀ (k : Nat) (l : List α), l.length ≤ k →
      (chunks m l).flatten = l := by
    intro k
    induction k with
    | zero =>
        intro l hl
        have : l = [] := List.eq_nil_of_length_eq_zero (by omega)
        subst this; rw [chunks_nil]; rfl
    | succ k ih =>
        intro l hl
        cases l with
        | nil => rw [chunks_nil]; rfl
        | cons x rest =>
            rw [chunks_cons_eq hm _ (by simp), List.flatten_cons,
              ih ((x :: rest).drop m)
                (by simp only [List.length_drop, List.length_cons] at hl ⊢; omega)]
            exact List.take_append_drop _ _
  exact key l.length l le_rfl

theorem chunks_flatten_of_rows {d : Nat} (hd : 0 < d) (samples : List (List α))
    (h : ∀ r ∈ samples, r.length = d) :
    chunks d samples.flatten = samples := by
  induction samples with
  | nil => simp [chunks_nil]
  | cons r rest ih =>
      have hr : r.length = d := h r (by simp)
      have hne : r ++ rest.flatten ≠ [] := by
        intro hcontra
        have : r = [] := (List.append_eq_nil.mp hcontra).1
        subst this; simp at hr; omega
      rw [List.flatten_cons, chunks_cons_eq hd _ hne, ← hr,
        List.take_left, List.drop_left, hr,
        ih (fun q hq => h q (List.mem_cons_of_mem _ hq))]

theorem chunks_length_exact {m : Nat} (hm : 0 < m) :
    ∀ (b : Nat) (l : List α), l.length = b * m → (chunks m l).length = b := by
  intro b
  induction b with
  | zero =>
      intro l hl
      have : l = [] := List.eq_nil_of_length_eq_zero (by omega)
      subst this; rw [chunks_nil]; rfl
  | succ k ih =>
      intro l hl
      have hlen' : l.length = k * m + m := by rw [hl, Nat.succ_mul]
      have hne : l ≠ [] := by
        intro hcontra; subst hcontra; simp at hlen'; omega
      rw [chunks_cons_eq hm l hne]
      simp only [List.length_cons]
      rw [ih (l.drop m) (by rw [List.length_drop, hlen']; omega)]

theorem chunks_mem_length {m : Nat} (hm : 0 < m) :
    ∀ (b : Nat) (l : List α), l.length = b * m →
      ∀ g ∈ chunks m l, g.length = m := by
  intro b
  induction b with
  | zero =>
      intro l hl
      have : l = [] := List.eq_nil_of_length_eq_zero (by omega)
      subst this; rw [chunks_nil]; simp
  | succ k ih =>
      intro l hl g hg
      have hlen' : l.length = k * m + m := by rw [hl, Nat.succ_mul]
      have hne : l ≠ [] := by
        intro hcontra; subst hcontra; simp at hlen'; omega
      rw [chunks_cons_eq hm l hne] at hg
      rcases List.mem_cons.mp hg with h1 | h2
      · subst h1; rw [List.length_take]; omega
      · exact ih (l.drop m) (by rw [List.length_drop, hlen']; omega) g h2

theorem flatten_replicate_replicate (m : Nat) (x : α) :
    ∀ b, (List.replicate b (List.replicate m x)).flatten = List.replicate (b * m) x := by
  intro b
  induction b with
  | zero => simp
  | succ k ih =>
      rw [List.replicate_succ, List.flatten_cons, ih, Nat.succ_mul, Nat.add_comm,
        List.replicate_add]

theorem npReshape3_eval (samples : List (List Int)) (d b m : Nat)
    (h : ∀ r ∈ samples, r.length = d) (hlen : samples.length = b * m)
    (hb : 0 < b) (hm : 0 < m) :
    npReshape3 samples b m =
      if d = 0 then .ok (List.replicate b (List.replicate m []))
      else .ok (chunks m (chunks d samples.flatten)) := by
  have hbm : 0 < b * m := Nat.mul_pos hb hm
  have hne : samples ≠ [] := by
    intro hcontra; subst hcontra; simp at hlen; omega
  have hd0 : (samples.headD []).length = d := by
    cases samples with
    | nil => exact absurd rfl hne
    | cons r rest => exact h r (by simp)
  have hall : (samples.all fun r => decide (r.length = (samples.headD []).length)) = true := by
    simp only [List.all_eq_true, decide_eq_true_eq]
    intro r hr; rw [h r hr, hd0]
  have hsum : (List.map List.length samples).sum = b * m * d := by
    have h1 : samples.map List.length =
        List.replicate (b * m) d := by
      have h2 : samples.map List.length =
          List.replicate (samples.map List.length).length d :=
        List.eq_replicate_of_mem (by
          intro x hx
          rcases List.mem_map.mp hx with ⟨r, hr, hrx⟩
          rw [← hrx]; exact h r hr)
      rw [h2, List.length_map, hlen]
    rw [h1, List.sum_replicate, smul_eq_mul]
  simp only [npReshape3, hall, List.length_flatten, hsum]
  rw [if_pos trivial, if_neg (by omega : ¬ b * m = 0),
    if_neg (fun hcon => hcon (Nat.mul_mod_right (b * m) d)),
    Nat.mul_div_cancel_left d hbm]

theorem npReshape3_spec (samples : List (List Int)) (d b m : Nat)
    (h : ∀ r ∈ samples, r.length = d) (hlen : samples.length = b * m)
    (hb : 0 < b) (hm : 0 < m) :
    ∃ p, npReshape3 samples b m = .ok p ∧ p.length = b ∧
      (∀ g ∈ p, g.length = m ∧ ∀ r ∈ g, r.length = d) ∧
      p.flatten = samples := by
  rw [npReshape3_eval samples d b m h hlen hb hm]
  by_cases hdz : d = 0
  · -- every row is empty; the reshape yields `b` blocks of `m` empty rows
    rw [if_pos hdz]
    refine ⟨List.replicate b (List.replicate m []), rfl, by simp, ?_, ?_⟩
    · intro g hg
      rw [(List.mem_replicate.mp hg).2]
      refine ⟨by simp, ?_⟩
      intro r hr
      rw [(List.mem_replicate.mp hr).2, hdz]; rfl
    · rw [flatten_replicate_replicate]
      have hall0 : ∀ r ∈ samples, r = ([] : List Int) := by
        intro r hr
        exact List.eq_nil_of_length_eq_zero (by rw [h r hr, hdz])
      rw [List.eq_replicate_of_mem hall0, hlen]
  · have hdpos : 0 < d := by omega
    rw [if_neg hdz, chunks_flatten_of_rows hdpos samples h]
    refine ⟨chunks m samples, rfl, chunks_length_exact hm b samples hlen, ?_,
      flatten_chunks hm samples⟩
    intro g hg
    refine ⟨chunks_mem_length hm b samples hlen g hg, ?_⟩
    intro r hr
    have hmem : r ∈ (chunks m samples).flatten := List.mem_flatten.mpr ⟨g, hg, hr⟩
    rw [flatten_chunks hm samples] at hmem
    exact h r hmem

/-- Evaluation of `_observe` for PerArmEnvironment under the shape-consistency
assumption the environment documents for its sampling functions: the call
succeeds, stores the observation it returns, advances each sampler stream by
the number of calls made, and the observation is built from `batch_size`
global samples, `batch_size * max_num_actions` arm samples (reshaped to
`batch_size` blocks of `max_num_actions` rows), and the clamped arm counts
when an arm-count function is configured. -/
theorem pa_observe_ok (env : PerArmEnv) (s : PerArmState) (gdim adim : Nat)
    (hg : ∀ i, (env.globalContextSamplingFn i).length = gdim)
    (ha : ∀ i, (env.armContextSamplingFn i).length = adim)
    (hb : 0 < env.batchSize) (hm : 0 < env.maxNumActions) :
    ∃ obs, env.observe s =
      (.ok obs,
       { globalCalls := s.globalCalls + env.batchSize,
         armCalls := s.armCalls + env.batchSize * env.maxNumActions,
         numCalls := s.numCalls +
           (if env.numActionsFn.isSome then env.batchSize else 0),
         observation := obs }) ∧
      obs.global = (List.range env.batchSize).map
        (fun i => env.globalContextSamplingFn (s.globalCalls + i)) ∧
      obs.perArm.length = env.batchSize ∧
      (∀ g ∈ obs.perArm, g.length = env.maxNumActions ∧
        ∀ r ∈ g, r.length = adim) ∧
      obs.perArm.flatten = (List.range (env.batchSize * env.maxNumActions)).map
        (fun i => env.armContextSamplingFn (s.armCalls + i)) ∧
      obs.numActions = env.numActionsFn.map (fun f =>
        (List.range env.batchSize).map
          (fun i => min (max (f (s.numCalls + i)) 1) (env.maxNumActions : Int))) := by
  have hstack : npStackRows ((List.range env.batchSize).map
      (fun i => env.globalContextSamplingFn (s.globalCalls + i))) =
      .ok ((List.range env.batchSize).map
        (fun i => env.globalContextSamplingFn (s.globalCalls + i))) := by
    refine npStackRows_ok _ gdim ?_ ?_
    · intro r hr
      rcases List.mem_map.mp hr with ⟨i, _, hri⟩
      rw [← hri]; exact hg _
    · intro hcontra
      have hlen := congrArg List.length hcontra
      simp only [List.length_map, List.length_range, List.length_nil] at hlen
      omega
  obtain ⟨p, hp, hplen, hpmem, hpflat⟩ :=
    npReshape3_spec ((List.range (env.batchSize * env.maxNumActions)).map
        (fun i => env.armContextSamplingFn (s.armCalls + i)))
      adim env.batchSize env.maxNumActions
      (by
        intro r hr
        rcases List.mem_map.mp hr with ⟨i, _, hri⟩
        rw [← hri]; exact ha _)
      (by simp) hb hm
  cases hnf : env.numActionsFn with
  | none =>
      refine ⟨{ global := _, perArm := p, numActions := none }, ?_, rfl,
        hplen, hpmem, hpflat, by simp [hnf]⟩
      simp only [PerArmEnv.observe, hstack, hp, hnf]
      simp
  | some f =>
      refine ⟨{ global := _, perArm := p,
                numActions := some ((List.range env.batchSize).map
                  (fun i => min (max (f (s.numCalls + i)) 1)
                    (env.maxNumActions : Int))) }, ?_, rfl,
        hplen, hpmem, hpflat, by simp [hnf]⟩
      simp only [PerArmEnv.observe, hstack, hp, hnf]
      simp

/-- Evaluation of `_apply_action` for FixedArmEnvironment without constraint
functions, when every action entry is a valid Python index into
`reward_fns`: the call returns the stacked list of
`reward_fns[a](o)` over `zip(action, observation)`. -/
theorem fa_applyAction_plain_eval (env : FixedArmEnv) (s : FixedArmState)
    (action : List Int)
    (hcon : env.constraintFns = none)
    (hlen : action.length = env.batchSize)
    (hobs : s.observation.length = env.batchSize)
    (hpos : 0 < env.batchSize)
    (hR : ∀ a ∈ action, pyInRange env.rewardFns.length a) :
    (env.applyAction s action).1 = .ok (.plain
      ((action.zip s.observation).map
        (fun p => env.rewardFns.getD (pyIdx env.rewardFns.length p.1)
          (fun _ => 0) p.2))) := by
  have hzlen : (action.zip s.observation).length = env.batchSize := by
    simp [List.length_zip, hlen, hobs]
  have hmap := mapRewards_ok env.rewardFns (action.zip s.observation)
    (fun p hp => hR p.1 (List.of_mem_zip hp).1)
  have hrln : ((action.zip s.observation).map
      (fun p => env.rewardFns.getD (pyIdx env.rewardFns.length p.1)
        (fun _ => 0) p.2)).length = env.batchSize := by
    rw [List.length_map, hzlen]
  have hne : ((action.zip s.observation).map
      (fun p => env.rewardFns.getD (pyIdx env.rewardFns.length p.1)
        (fun _ => 0) p.2)) ≠ [] := by
    intro hc; rw [hc] at hrln; simp at hrln; omega
  simp only [FixedArmEnv.applyAction, hmap, hcon, npStack1_ok _ hne]
  rw [if_neg (by omega)]

theorem zip_map_rewards_getD (fns : List (List Int → Int)) (action : List Int)
    (obs : List (List Int)) (b : Nat) (hb1 : b < action.length)
    (hb2 : b < obs.length) :
    ((action.zip obs).map
      (fun p => fns.getD (pyIdx fns.length p.1) (fun _ => 0) p.2)).getD b 0 =
    fns.getD (pyIdx fns.length (action.getD b 0)) (fun _ => 0) (obs.getD b []) := by
  rw [getD_map_of_lt _ _ 0 ((0 : Int), ([] : List Int))
      (by rw [List.length_zip]; exact lt_min hb1 hb2),
    getD_zip_of_lt action obs ((0 : Int), ([] : List Int)) 0 [] hb1 hb2]

/-! ## Claim theorems -/

/-- C1: For FixedArmEnvironment, `_apply_action` with an action list of
length `batch_size` over a stored batch observation returns the stack, along
a new leading batch axis, of `reward_fns[action[b]](observation[b])` for
each batch element `b` (no constraints configured, all actions in range);
in particular with `batch_size = 1`, `reward_fns = [f]`, `action = [0]` the
returned reward is `[f(observation[0])]`. -/
theorem fixedArm_applyAction_stacks_rewards (env : FixedArmEnv)
    (s : FixedArmState) (action : List Int)
    (hcon : env.constraintFns = none)
    (hlen : action.length = env.batchSize)
    (hobs : s.observation.length = env.batchSize)
    (hpos : 0 < env.batchSize)
    (hrange : ∀ a ∈ action, 0 ≤ a ∧ a < (env.rewardFns.length : Int)) :
    ∃ r, (env.applyAction s action).1 = .ok (.plain r) ∧
      r.length = env.batchSize ∧
      ∀ b, b < env.batchSize →
        r.getD b 0 = (env.rewardFns.getD (action.getD b 0).toNat (fun _ => 0))
          (s.observation.getD b []) := by
  have hR : ∀ a ∈ action, pyInRange env.rewardFns.length a := by
    intro a ha
    obtain ⟨h1, h2⟩ := hrange a ha
    exact ⟨by omega, h2⟩
  refine ⟨_, fa_applyAction_plain_eval env s action hcon hlen hobs hpos hR,
    by simp [List.length_zip, hlen, hobs], ?_⟩
  intro b hb
  rw [zip_map_rewards_getD env.rewardFns action s.observation b (by omega) (by omega)]
  rw [pyIdx_nonneg (hrange _ (@getD_mem_of_lt _ action 0 b (by omega))).1]

/-- Witness for C1: `batch_size = 1`, `reward_fns = [fun row => head row + 3]`,
stored observation `[[4]]`, `action = [0]`. -/
theorem fixedArm_applyAction_stacks_rewards_witness :
    ∃ r, (FixedArmEnv.applyAction
        { contextSamplingFn := fun _ => [[4]],
          rewardFns := [fun row => row.headD 0 + 3],
          constraintFns := none, batchSize := 1 }
        { ctxCalls := 1, observation := [[4]] } [0]).1 = .ok (.plain r) ∧
      r.length = 1 ∧
      ∀ b, b < 1 →
        r.getD b 0 = (([fun row => row.headD 0 + 3] :
            List (List Int → Int)).getD ([(0 : Int)].getD b 0).toNat (fun _ => 0))
          (([[4]] : List (List Int)).getD b []) :=
  fixedArm_applyAction_stacks_rewards _ _ _ rfl rfl rfl (by decide) (by decide)

/-- C3: For both environments, `_apply_action` raises `ValueError` (and
leaves the state untouched) whenever the action count differs from
`batch_size`, and it does so without invoking any reward or constraint
function: the outcome is the same for every choice of reward/constraint
functions. -/
theorem applyAction_batch_mismatch_valueError (envF : FixedArmEnv)
    (sF : FixedArmState) (aF : List Int) (envP : PerArmEnv) (sP : PerArmState)
    (aP : List Int)
    (hF : aF.length ≠ envF.batchSize) (hP : aP.length ≠ envP.batchSize) :
    envF.applyAction sF aF = (.error .valueError, sF) ∧
    envP.applyAction sP aP = (.error .valueError, sP) ∧
    (∀ fns cfs, FixedArmEnv.applyAction
      { envF with rewardFns := fns, constraintFns := cfs } sF aF =
        (.error .valueError, sF)) ∧
    (∀ f, PerArmEnv.applyAction { envP with rewardFn := f } sP aP =
      (.error .valueError, sP)) := by
  refine ⟨?_, ?_, fun fns cfs => ?_, fun f => ?_⟩ <;>
    simp [FixedArmEnv.applyAction, PerArmEnv.applyAction, hF, hP]

/-- Witness for C3: batch size 1 environments with a 2-element action. -/
theorem applyAction_batch_mismatch_valueError_witness :
    (FixedArmEnv.applyAction
      { contextSamplingFn := fun _ => [[4]], rewardFns := [fun _ => 0],
        constraintFns := none, batchSize := 1 }
      { ctxCalls := 0, observation := [[4]] } [0, 0] =
        (.error .valueError, { ctxCalls := 0, observation := [[4]] })) ∧
    (PerArmEnv.applyAction
      { globalContextSamplingFn := fun _ => [1], armContextSamplingFn := fun _ => [2],
        maxNumActions := 2, rewardFn := List.sum, numActionsFn := none,
        batchSize := 1 }
      { globalCalls := 0, armCalls := 0, numCalls := 0,
        observation := { global := [[1]], perArm := [[[2], [2]]], numActions := none } }
      [0, 1] =
        (.error .valueError,
         { globalCalls := 0, armCalls := 0, numCalls := 0,
           observation := { global := [[1]], perArm := [[[2], [2]]], numActions := none } })) :=
  ⟨(applyAction_batch_mismatch_valueError
      { contextSamplingFn := fun _ => [[4]], rewardFns := [fun _ => 0],
        constraintFns := none, batchSize := 1 }
      { ctxCalls := 0, observation := [[4]] } [0, 0]
      { globalContextSamplingFn := fun _ => [1], armContextSamplingFn := fun _ => [2],
        maxNumActions := 2, rewardFn := List.sum, numActionsFn := none,
        batchSize := 1 }
      { globalCalls := 0, armCalls := 0, numCalls := 0,
        observation := { global := [[1]], perArm := [[[2], [2]]], numActions := none } }
      [0, 1] (by decide) (by decide)).1,
   (applyAction_batch_mismatch_valueError
      { contextSamplingFn := fun _ => [[4]], rewardFns := [fun _ => 0],
        constraintFns := none, batchSize := 1 }
      { ctxCalls := 0, observation := [[4]] } [0, 0]
      { globalContextSamplingFn := fun _ => [1], armContextSamplingFn := fun _ => [2],
        maxNumActions := 2, rewardFn := List.sum, numActionsFn := none,
        batchSize := 1 }
      { globalCalls := 0, armCalls := 0, numCalls := 0,
        observation := { global := [[1]], perArm := [[[2], [2]]], numActions := none } }
      [0, 1] (by decide) (by decide)).2.1⟩

/-- C10: FixedArmEnvironment performs no range validation on the individual
action values: with `len(action) == batch_size`, any action whose entries
are all in the Python index range `[-len(reward_fns), len(reward_fns))`
succeeds, a negative entry selecting the function at the wrapped-around
index `len(reward_fns) + a` (as computed by `pyIdx`); whereas an action
with any entry outside that range (in particular one `>= len(reward_fns)`)
raises `IndexError`, not the batch-size `ValueError`. -/
theorem fixedArm_negative_action_wraps (env : FixedArmEnv) (s : FixedArmState)
    (action : List Int)
    (hcon : env.constraintFns = none)
    (hlen : action.length = env.batchSize)
    (hobs : s.observation.length = env.batchSize)
    (hpos : 0 < env.batchSize) :
    ((∀ a ∈ action, pyInRange env.rewardFns.length a) →
      ∃ r, (env.applyAction s action).1 = .ok (.plain r) ∧
        r.length = env.batchSize ∧
        ∀ b, b < env.batchSize →
          r.getD b 0 = (env.rewardFns.getD
            (pyIdx env.rewardFns.length (action.getD b 0)) (fun _ => 0))
            (s.observation.getD b [])) ∧
    ((∃ b, b < env.batchSize ∧
        ¬ pyInRange env.rewardFns.length (action.getD b 0)) →
      (env.applyAction s action).1 = .error .indexError) := by
  constructor
  · intro hR
    refine ⟨_, fa_applyAction_plain_eval env s action hcon hlen hobs hpos hR,
      by simp [List.length_zip, hlen, hobs], ?_⟩
    intro b hb
    exact zip_map_rewards_getD env.rewardFns action s.observation b
      (by omega) (by omega)
  · rintro ⟨b, hb, hbad⟩
    have hmem : (action.getD b 0, s.observation.getD b []) ∈
        action.zip s.observation :=
      getD_mem_zip action s.observation 0 [] (by omega) (by omega)
    have herr := mapRewards_err env.rewardFns (action.zip s.observation)
      ⟨_, hmem, hbad⟩
    simp only [FixedArmEnv.applyAction, herr]
    rw [if_neg (by omega)]

/-- Witness for C10: two reward functions, observation `[[4]]`; action `[-1]`
wraps to the second (last) function and yields `[9]`; action `[5]` (`≥ 2`)
raises `IndexError`. -/
theorem fixedArm_negative_action_wraps_witness :
    (∃ r, (FixedArmEnv.applyAction
        { contextSamplingFn := fun _ => [[4]],
          rewardFns := [fun _ => 7, fun _ => 9],
          constraintFns := none, batchSize := 1 }
        { ctxCalls := 0, observation := [[4]] } [-1]).1 = .ok (.plain r) ∧
      r.length = 1 ∧
      ∀ b, b < 1 →
        r.getD b 0 = (([fun _ => 7, fun _ => 9] : List (List Int → Int)).getD
          (pyIdx 2 ([(-1 : Int)].getD b 0)) (fun _ => 0))
          (([[4]] : List (List Int)).getD b [])) ∧
    (FixedArmEnv.applyAction
        { contextSamplingFn := fun _ => [[4]],
          rewardFns := [fun _ => 7, fun _ => 9],
          constraintFns := none, batchSize := 1 }
        { ctxCalls := 0, observation := [[4]] } [5]).1 = .error .indexError :=
  ⟨(fixedArm_negative_action_wraps _ _ [-1] rfl rfl rfl (by decide)).1
      (by decide),
   (fixedArm_negative_action_wraps _ _ [5] rfl rfl rfl (by decide)).2
      ⟨0, by decide, by decide⟩⟩

/-- C8: For FixedArmEnvironment with constraint functions, every successful
`_apply_action` returns the two-key mapping `{reward, constraint}`
(constructor `withConstraint`), and with valid in-range actions the `reward`
entry stacks `reward_fns[action[b]](observation[b])` and the `constraint`
entry stacks `constraint_fns[action[b]](observation[b])`, each of leading
dimension `batch_size`. -/
theorem fixedArm_applyAction_with_constraints (env : FixedArmEnv)
    (s : FixedArmState) (action : List Int) (cfs : List (List Int → Int))
    (hcon : env.constraintFns = some cfs)
    (hlen : action.length = env.batchSize)
    (hobs : s.observation.length = env.batchSize)
    (hpos : 0 < env.batchSize)
    (hrangeR : ∀ a ∈ action, 0 ≤ a ∧ a < (env.rewardFns.length : Int))
    (hrangeC : ∀ a ∈ action, a < (cfs.length : Int)) :
    (∀ v, (env.applyAction s action).1 = .ok v →
      ∃ rs cs, v = .withConstraint rs cs) ∧
    ∃ rs cs, (env.applyAction s action).1 = .ok (.withConstraint rs cs) ∧
      rs.length = env.batchSize ∧ cs.length = env.batchSize ∧
      ∀ b, b < env.batchSize →
        rs.getD b 0 = (env.rewardFns.getD (action.getD b 0).toNat (fun _ => 0))
          (s.observation.getD b []) ∧
        cs.getD b 0 = (cfs.getD (action.getD b 0).toNat (fun _ => 0))
          (s.observation.getD b []) := by
  have hzlen : (action.zip s.observation).length = env.batchSize := by
    simp [List.length_zip, hlen, hobs]
  have hmapR := mapRewards_ok env.rewardFns (action.zip s.observation)
    (fun p hp => by
      obtain ⟨h1, h2⟩ := hrangeR p.1 (List.of_mem_zip hp).1
      exact ⟨by omega, h2⟩)
  have hmapC := mapRewards_ok cfs (action.zip s.observation)
    (fun p hp => by
      obtain ⟨h1, _⟩ := hrangeR p.1 (List.of_mem_zip hp).1
      have h2 := hrangeC p.1 (List.of_mem_zip hp).1
      exact ⟨by omega, h2⟩)
  have hneR : ((action.zip s.observation).map
      (fun p => env.rewardFns.getD (pyIdx env.rewardFns.length p.1)
        (fun _ => 0) p.2)) ≠ [] := by
    intro hc
    have := congrArg List.length hc
    rw [List.length_map, hzlen] at this
    simp at this; omega
  have hneC : ((action.zip s.observation).map
      (fun p => cfs.getD (pyIdx cfs.length p.1) (fun _ => 0) p.2)) ≠ [] := by
    intro hc
    have := congrArg List.length hc
    rw [List.length_map, hzlen] at this
    simp at this; omega
  constructor
  · intro v hv
    simp only [FixedArmEnv.applyAction, hcon] at hv
    split at hv
    · exact absurd hv (by simp)
    · split at hv
      · exact absurd hv (by simp)
      · split at hv
        · exact absurd hv (by simp)
        · split at hv
          · exact absurd hv (by simp)
          · split at hv
            · exact absurd hv (by simp)
            · cases hv; exact ⟨_, _, rfl⟩
  · refine ⟨(action.zip s.observation).map
        (fun p => env.rewardFns.getD (pyIdx env.rewardFns.length p.1)
          (fun _ => 0) p.2),
      (action.zip s.observation).map
        (fun p => cfs.getD (pyIdx cfs.length p.1) (fun _ => 0) p.2),
      ?_, by rw [List.length_map, hzlen], by rw [List.length_map, hzlen], ?_⟩
    · simp only [FixedArmEnv.applyAction, hmapR, hmapC, hcon,
        npStack1_ok _ hneR, npStack1_ok _ hneC]
      rw [if_neg (by omega)]
    · intro b hb
      have h0 : 0 ≤ action.getD b 0 :=
        (hrangeR _ (@getD_mem_of_lt _ action 0 b (by omega))).1
      constructor
      · rw [zip_map_rewards_getD env.rewardFns action s.observation b
          (by omega) (by omega), pyIdx_nonneg h0]
      · rw [zip_map_rewards_getD cfs action s.observation b
          (by omega) (by omega), pyIdx_nonneg h0]

/-- Witness for C8: one reward and one constraint function, batch size 1. -/
theorem fixedArm_applyAction_with_constraints_witness :
    ((∀ v, (FixedArmEnv.applyAction
        { contextSamplingFn := fun _ => [[4]],
          rewardFns := [fun row => row.headD 0 + 3],
          constraintFns := some [fun row => row.headD 0 - 1],
          batchSize := 1 }
        { ctxCalls := 0, observation := [[4]] } [0]).1 = .ok v →
      ∃ rs cs, v = .withConstraint rs cs) ∧
    ∃ rs cs, (FixedArmEnv.applyAction
        { contextSamplingFn := fun _ => [[4]],
          rewardFns := [fun row => row.headD 0 + 3],
          constraintFns := some [fun row => row.headD 0 - 1],
          batchSize := 1 }
        { ctxCalls := 0, observation := [[4]] } [0]).1 =
          .ok (.withConstraint rs cs) ∧
      rs.length = 1 ∧ cs.length = 1 ∧
      ∀ b, b < 1 →
        rs.getD b 0 = (([fun row => row.headD 0 + 3] :
            List (List Int → Int)).getD ([(0 : Int)].getD b 0).toNat (fun _ => 0))
          (([[4]] : List (List Int)).getD b []) ∧
        cs.getD b 0 = (([fun row => row.headD 0 - 1] :
            List (List Int → Int)).getD ([(0 : Int)].getD b 0).toNat (fun _ => 0))
          (([[4]] : List (List Int)).getD b [])) :=
  fixedArm_applyAction_with_constraints _ _ [0] _ rfl rfl rfl (by decide)
    (by decide) (by decide)

/-- C2: For PerArmEnvironment, `_apply_action` with `batch_size` in-range
actions over a stored observation returns the stack, along a new leading
batch axis, of `reward_fn` applied to the concatenation of the stored
global row for `b` with the stored per-arm row at index `action[b]`, for
each batch element `b`. -/
theorem perArm_applyAction_concat_reward (env : PerArmEnv) (s : PerArmState)
    (action : List Int)
    (hlen : action.length = env.batchSize)
    (hpos : 0 < env.batchSize)
    (hgl : s.observation.global.length = env.batchSize)
    (hpl : s.observation.perArm.length = env.batchSize)
    (hrows : ∀ g ∈ s.observation.perArm, g.length = env.maxNumActions)
    (hrange : ∀ a ∈ action, 0 ≤ a ∧ a < (env.maxNumActions : Int)) :
    ∃ r, (env.applyAction s action).1 = .ok r ∧ r.length = env.batchSize ∧
      ∀ b, b < env.batchSize →
        r.getD b 0 = env.rewardFn (s.observation.global.getD b [] ++
          (s.observation.perArm.getD b []).getD (action.getD b 0).toNat []) := by
  have hzlen : ((List.range env.batchSize).zip action).length = env.batchSize := by
    simp [List.length_zip, hlen]
  have hfancy := fancyIndexPairs_ok s.observation.perArm
    ((List.range env.batchSize).zip action)
    (by
      intro p hp
      have hp1 : p.1 < env.batchSize :=
        List.mem_range.mp (List.of_mem_zip hp).1
      have hp2 := hrange p.2 (List.of_mem_zip hp).2
      refine ⟨by omega, ?_, ?_⟩
      · omega
      · rw [hrows _ (@getD_mem_of_lt _ s.observation.perArm [] p.1 (by omega))]
        exact hp2.2)
  have harmlen : (((List.range env.batchSize).zip action).map
      (fun p => (s.observation.perArm.getD p.1 []).getD
        (pyIdx (s.observation.perArm.getD p.1 []).length p.2) [])).length =
      env.batchSize := by
    rw [List.length_map, hzlen]
  have hrew := perArmRewards_ok env.rewardFn s.observation.global
    (((List.range env.batchSize).zip action).map
      (fun p => (s.observation.perArm.getD p.1 []).getD
        (pyIdx (s.observation.perArm.getD p.1 []).length p.2) []))
    (List.range env.batchSize)
    (by
      intro b hbmem
      have hblt : b < env.batchSize := List.mem_range.mp hbmem
      exact ⟨by omega, by omega⟩)
  have hne : ((List.range env.batchSize).map
      (fun b => env.rewardFn (s.observation.global.getD b [] ++
        (((List.range env.batchSize).zip action).map
          (fun p => (s.observation.perArm.getD p.1 []).getD
            (pyIdx (s.observation.perArm.getD p.1 []).length p.2) [])).getD b []))) ≠
      [] := by
    intro hc
    have := congrArg List.length hc
    simp only [List.length_map, List.length_range, List.length_nil] at this
    omega
  refine ⟨(List.range env.batchSize).map
      (fun b => env.rewardFn (s.observation.global.getD b [] ++
        (((List.range env.batchSize).zip action).map
          (fun p => (s.observation.perArm.getD p.1 []).getD
            (pyIdx (s.observation.perArm.getD p.1 []).length p.2) [])).getD b [])),
    ?_, by rw [List.length_map, List.length_range], ?_⟩
  · simp only [PerArmEnv.applyAction, hfancy, hrew, npStack1_ok _ hne]
    rw [if_neg (by omega)]
  · intro b hb
    rw [getD_map_of_lt _ (List.range env.batchSize) 0 0 (by simpa using hb),
      getD_range_of_lt 0 hb,
      getD_map_of_lt _ ((List.range env.batchSize).zip action) []
        ((0 : Nat), (0 : Int)) (by rw [hzlen]; omega),
      getD_zip_of_lt (List.range env.batchSize) action ((0 : Nat), (0 : Int))
        0 0 (by simpa using hb) (by omega),
      getD_range_of_lt 0 hb,
      pyIdx_nonneg (hrange _ (@getD_mem_of_lt _ action 0 b (by omega))).1]

/-- Witness for C2: deterministic samplers `[1,2]` (global) and `[10,20,30]`
(arm), `max_num_actions = 2`, `reward_fn = sum`, `batch_size = 1`,
`action = [1]`, applied to the state an `observe()` produces: the reward is
the sum of the concatenation, `63`. -/
theorem perArm_applyAction_concat_reward_witness :
    (∃ r, (PerArmEnv.applyAction
        { globalContextSamplingFn := fun _ => [1, 2],
          armContextSamplingFn := fun _ => [10, 20, 30],
          maxNumActions := 2, rewardFn := List.sum, numActionsFn := none,
          batchSize := 1 }
        (PerArmEnv.observe
          { globalContextSamplingFn := fun _ => [1, 2],
            armContextSamplingFn := fun _ => [10, 20, 30],
            maxNumActions := 2, rewardFn := List.sum, numActionsFn := none,
            batchSize := 1 }
          { globalCalls := 0, armCalls := 0, numCalls := 0,
            observation := { global := [], perArm := [], numActions := none } }).2
        [1]).1 = .ok r ∧ r.length = 1 ∧
      ∀ b, b < 1 →
        r.getD b 0 = List.sum
          ((([[1, 2]] : List (List Int)).getD b []) ++
            ((([[[10, 20, 30], [10, 20, 30]]] :
              List (List (List Int))).getD b []).getD
              ([(1 : Int)].getD b 0).toNat []))) ∧
    (([1, 2] ++ [10, 20, 30] : List Int).sum = 63) :=
  ⟨perArm_applyAction_concat_reward
      { globalContextSamplingFn := fun _ => [1, 2],
        armContextSamplingFn := fun _ => [10, 20, 30],
        maxNumActions := 2, rewardFn := List.sum, numActionsFn := none,
        batchSize := 1 }
      (PerArmEnv.observe
        { globalContextSamplingFn := fun _ => [1, 2],
          armContextSamplingFn := fun _ => [10, 20, 30],
          maxNumActions := 2, rewardFn := List.sum, numActionsFn := none,
          batchSize := 1 }
        { globalCalls := 0, armCalls := 0, numCalls := 0,
          observation := { global := [], perArm := [], numActions := none } }).2
      [1] rfl (by decide) (by decide) (by decide) (by decide) (by decide),
   by decide⟩

/-- C4: For PerArmEnvironment with an arm-count function configured (and
`max_num_actions ≥ 1`, the documented domain), after every successful
`_observe()` the observation carries a `num_actions` entry all of whose
values lie in `[1, max_num_actions]`, no matter what raw values the
arm-count function returns: raw values below 1 are raised to 1 and values
above `max_num_actions` are capped. -/
theorem perArm_numActions_clamped (env : PerArmEnv) (s : PerArmState)
    (f : Nat → Int)
    (hf : env.numActionsFn = some f)
    (hmax : 1 ≤ env.maxNumActions) :
    ∀ obs, (env.observe s).1 = .ok obs →
      ∃ l, obs.numActions = some l ∧
        ∀ x ∈ l, 1 ≤ x ∧ x ≤ (env.maxNumActions : Int) := by
  intro obs hobs
  simp only [PerArmEnv.observe, hf] at hobs
  split at hobs
  · simp at hobs
  · split at hobs
    · simp at hobs
    · simp only at hobs
      cases hobs
      refine ⟨_, rfl, ?_⟩
      intro x hx
      rcases List.mem_map.mp hx with ⟨i, _, hxi⟩
      subst hxi
      exact ⟨le_min (le_max_right _ _) (by exact_mod_cast hmax),
        min_le_right _ _⟩

/-- Witness for C4: arm-count function constantly `7` with
`max_num_actions = 2`: the observation records `num_actions = [2]`,
inside `[1, 2]`. -/
theorem perArm_numActions_clamped_witness :
    ∃ l, ({ global := [[1, 2]], perArm := [[[10, 20, 30], [10, 20, 30]]],
            numActions := some [2] } : PerArmObs).numActions = some l ∧
      ∀ x ∈ l, 1 ≤ x ∧ x ≤ ((2 : Nat) : Int) :=
  perArm_numActions_clamped
    { globalContextSamplingFn := fun _ => [1, 2],
      armContextSamplingFn := fun _ => [10, 20, 30],
      maxNumActions := 2, rewardFn := List.sum,
      numActionsFn := some (fun _ => 7), batchSize := 1 }
    { globalCalls := 0, armCalls := 0, numCalls := 0,
      observation := { global := [], perArm := [], numActions := none } }
    (fun _ => 7) rfl (by decide)
    { global := [[1, 2]], perArm := [[[10, 20, 30], [10, 20, 30]]],
      numActions := some [2] } rfl

/-- C5: For PerArmEnvironment (with shape-consistent samplers, positive
batch size and `max_num_actions`, and any arm-count configuration),
`_observe()` succeeds and returns an observation whose `global` entry is
the stack of `batch_size` fresh global samples (shape
`(batch_size, global_dim)`) and whose `per_arm` entry has shape
`(batch_size, max_num_actions, arm_dim)` and flattens to the
`batch_size * max_num_actions` fresh arm samples in order — independent of
the `num_actions` values. -/
theorem perArm_observe_shapes (env : PerArmEnv) (s : PerArmState)
    (gdim adim : Nat)
    (hg : ∀ i, (env.globalContextSamplingFn i).length = gdim)
    (ha : ∀ i, (env.armContextSamplingFn i).length = adim)
    (hb : 0 < env.batchSize) (hm : 0 < env.maxNumActions) :
    ∃ obs, (env.observe s).1 = .ok obs ∧
      obs.global.length = env.batchSize ∧
      (∀ row ∈ obs.global, row.length = gdim) ∧
      obs.global = (List.range env.batchSize).map
        (fun i => env.globalContextSamplingFn (s.globalCalls + i)) ∧
      obs.perArm.length = env.batchSize ∧
      (∀ g ∈ obs.perArm, g.length = env.maxNumActions ∧
        ∀ row ∈ g, row.length = adim) ∧
      obs.perArm.flatten = (List.range (env.batchSize * env.maxNumActions)).map
        (fun i => env.armContextSamplingFn (s.armCalls + i)) := by
  obtain ⟨obs, heq, hglobal, hplen, hpmem, hpflat, _⟩ :=
    pa_observe_ok env s gdim adim hg ha hb hm
  refine ⟨obs, by rw [heq], ?_, ?_, hglobal, hplen, hpmem, hpflat⟩
  · rw [hglobal, List.length_map, List.length_range]
  · intro row hrow
    rw [hglobal] at hrow
    rcases List.mem_map.mp hrow with ⟨i, _, hri⟩
    rw [← hri]; exact hg _

/-- Witness for C5: the deterministic samplers of the C2 scenario,
`batch_size = 1`, `max_num_actions = 2`, with an arm-count function
present (showing independence from `num_actions`). -/
theorem perArm_observe_shapes_witness :
    ∃ obs, (PerArmEnv.observe
        { globalContextSamplingFn := fun _ => [1, 2],
          armContextSamplingFn := fun _ => [10, 20, 30],
          maxNumActions := 2, rewardFn := List.sum,
          numActionsFn := some (fun _ => 7), batchSize := 1 }
        { globalCalls := 0, armCalls := 0, numCalls := 0,
          observation := { global := [], perArm := [], numActions := none } }).1 =
        .ok obs ∧
      obs.global.length = 1 ∧
      (∀ row ∈ obs.global, row.length = 2) ∧
      obs.global = [[1, 2]] ∧
      obs.perArm.length = 1 ∧
      (∀ g ∈ obs.perArm, g.length = 2 ∧ ∀ row ∈ g, row.length = 3) ∧
      obs.perArm.flatten = [[10, 20, 30], [10, 20, 30]] :=
  perArm_observe_shapes
    { globalContextSamplingFn := fun _ => [1, 2],
      armContextSamplingFn := fun _ => [10, 20, 30],
      maxNumActions := 2, rewardFn := List.sum,
      numActionsFn := some (fun _ => 7), batchSize := 1 }
    { globalCalls := 0, armCalls := 0, numCalls := 0,
      observation := { global := [], perArm := [], numActions := none } }
    2 3 (fun _ => rfl) (fun _ => rfl) (by decide) (by decide)

/-- C9: For both environments, `_apply_action` returns the instance state
unchanged (in particular the stored observation is read, never mutated),
and calling `_observe()` twice in a row without an intervening
`_apply_action()` succeeds and simply replaces the stored observation with
the fresh second sample: for FixedArmEnvironment the stored observation is
then the sampler value at the advanced call index, and for
PerArmEnvironment (under the documented sampler shape-consistency) both
calls succeed, the stored observation equals the second call's return and
its global part is built from the fresh samples drawn after the first
call's. -/
theorem applyAction_frame_and_observe_overwrite
    (envF : FixedArmEnv) (sF : FixedArmState) (aF : List Int)
    (envP : PerArmEnv) (sP : PerArmState) (aP : List Int)
    (gdim adim : Nat)
    (hg : ∀ i, (envP.globalContextSamplingFn i).length = gdim)
    (ha : ∀ i, (envP.armContextSamplingFn i).length = adim)
    (hb : 0 < envP.batchSize) (hm : 0 < envP.maxNumActions) :
    (envF.applyAction sF aF).2 = sF ∧
    (envP.applyAction sP aP).2 = sP ∧
    ((envF.observe (envF.observe sF).2).2).observation =
      envF.contextSamplingFn (sF.ctxCalls + 1) ∧
    ((envF.observe (envF.observe sF).2).2).observation =
      (envF.observe (envF.observe sF).2).1 ∧
    (∃ obs1 obs2,
      (envP.observe sP).1 = .ok obs1 ∧
      (envP.observe (envP.observe sP).2).1 = .ok obs2 ∧
      ((envP.observe (envP.observe sP).2).2).observation = obs2 ∧
      obs2.global = (List.range envP.batchSize).map
        (fun i => envP.globalContextSamplingFn
          (sP.globalCalls + envP.batchSize + i))) := by
  refine ⟨rfl, rfl, rfl, rfl, ?_⟩
  obtain ⟨obs1, heq1, _, _, _, _, _⟩ :=
    pa_observe_ok envP sP gdim adim hg ha hb hm
  obtain ⟨obs2, heq2, hglob2, _, _, _, _⟩ :=
    pa_observe_ok envP (envP.observe sP).2 gdim adim hg ha hb hm
  have hs1 : (envP.observe sP).2 =
      { globalCalls := sP.globalCalls + envP.batchSize,
        armCalls := sP.armCalls + envP.batchSize * envP.maxNumActions,
        numCalls := sP.numCalls +
          (if envP.numActionsFn.isSome then envP.batchSize else 0),
        observation := obs1 } := by rw [heq1]
  refine ⟨obs1, obs2, by rw [heq1], by rw [heq2], by rw [heq2], ?_⟩
  rw [hglob2, hs1]

/-- Witness for C9: concrete batch-1 environments; the per-arm global
sampler varies with the call index, showing the second `observe` stores the
fresh sample. -/
theorem applyAction_frame_and_observe_overwrite_witness :
    ((FixedArmEnv.applyAction
        { contextSamplingFn := fun i => [[(i : Int)]],
          rewardFns := [fun _ => 0], constraintFns := none, batchSize := 1 }
        { ctxCalls := 0, observation := [[4]] } [0]).2 =
      { ctxCalls := 0, observation := [[4]] }) ∧
    ((PerArmEnv.applyAction
        { globalContextSamplingFn := fun i => [(i : Int)],
          armContextSamplingFn := fun _ => [10],
          maxNumActions := 2, rewardFn := List.sum, numActionsFn := none,
          batchSize := 1 }
        { globalCalls := 0, armCalls := 0, numCalls := 0,
          observation := { global := [[0]], perArm := [[[10], [10]]],
                           numActions := none } } [0]).2 =
      { globalCalls := 0, armCalls := 0, numCalls := 0,
        observation := { global := [[0]], perArm := [[[10], [10]]],
                         numActions := none } }) ∧
    ((FixedArmEnv.observe
        { contextSamplingFn := fun i => [[(i : Int)]],
          rewardFns := [fun _ => 0], constraintFns := none, batchSize := 1 }
        ((FixedArmEnv.observe
          { contextSamplingFn := fun i => [[(i : Int)]],
            rewardFns := [fun _ => 0], constraintFns := none, batchSize := 1 }
          { ctxCalls := 0, observation := [[4]] }).2)).2).observation =
      (fun i => [[(i : Int)]]) (0 + 1) ∧
    ((FixedArmEnv.observe
        { contextSamplingFn := fun i => [[(i : Int)]],
          rewardFns := [fun _ => 0], constraintFns := none, batchSize := 1 }
        ((FixedArmEnv.observe
          { contextSamplingFn := fun i => [[(i : Int)]],
            rewardFns := [fun _ => 0], constraintFns := none, batchSize := 1 }
          { ctxCalls := 0, observation := [[4]] }).2)).2).observation =
      (FixedArmEnv.observe
        { contextSamplingFn := fun i => [[(i : Int)]],
          rewardFns := [fun _ => 0], constraintFns := none, batchSize := 1 }
        ((FixedArmEnv.observe
          { contextSamplingFn := fun i => [[(i : Int)]],
            rewardFns := [fun _ => 0], constraintFns := none, batchSize := 1 }
          { ctxCalls := 0, observation := [[4]] }).2)).1 ∧
    (∃ obs1 obs2,
      (PerArmEnv.observe
        { globalContextSamplingFn := fun i => [(i : Int)],
          armContextSamplingFn := fun _ => [10],
          maxNumActions := 2, rewardFn := List.sum, numActionsFn := none,
          batchSize := 1 }
        { globalCalls := 0, armCalls := 0, numCalls := 0,
          observation := { global := [[0]], perArm := [[[10], [10]]],
                           numActions := none } }).1 = .ok obs1 ∧
      (PerArmEnv.observe
        { globalContextSamplingFn := fun i => [(i : Int)],
          armContextSamplingFn := fun _ => [10],
          maxNumActions := 2, rewardFn := List.sum, numActionsFn := none,
          batchSize := 1 }
        ((PerArmEnv.observe
          { globalContextSamplingFn := fun i => [(i : Int)],
            armContextSamplingFn := fun _ => [10],
            maxNumActions := 2, rewardFn := List.sum, numActionsFn := none,
            batchSize := 1 }
          { globalCalls := 0, armCalls := 0, numCalls := 0,
            observation := { global := [[0]], perArm := [[[10], [10]]],
                             numActions := none } }).2)).1 = .ok obs2 ∧
      ((PerArmEnv.observe
        { globalContextSamplingFn := fun i => [(i : Int)],
          armContextSamplingFn := fun _ => [10],
          maxNumActions := 2, rewardFn := List.sum, numActionsFn := none,
          batchSize := 1 }
        ((PerArmEnv.observe
          { globalContextSamplingFn := fun i => [(i : Int)],
            armContextSamplingFn := fun _ => [10],
            maxNumActions := 2, rewardFn := List.sum, numActionsFn := none,
            batchSize := 1 }
          { globalCalls := 0, armCalls := 0, numCalls := 0,
            observation := { global := [[0]], perArm := [[[10], [10]]],
                             numActions := none } }).2)).2).observation = obs2 ∧
      obs2.global = (List.range 1).map (fun i => [((0 + 1 + i : Nat) : Int)])) :=
  applyAction_frame_and_observe_overwrite
    { contextSamplingFn := fun i => [[(i : Int)]],
      rewardFns := [fun _ => 0], constraintFns := none, batchSize := 1 }
    { ctxCalls := 0, observation := [[4]] } [0]
    { globalContextSamplingFn := fun i => [(i : Int)],
      armContextSamplingFn := fun _ => [10],
      maxNumActions := 2, rewardFn := List.sum, numActionsFn := none,
      batchSize := 1 }
    { globalCalls := 0, armCalls := 0, numCalls := 0,
      observation := { global := [[0]], perArm := [[[10], [10]]],
                       numActions := none } } [0]
    1 1 (fun _ => rfl) (fun _ => rfl) (by decide) (by decide)

theorem pyGet_zero (x : α) (rest : List α) : pyGet (x :: rest) 0 = .ok x := by
  have hpos : 0 < (x :: rest).length := by simp
  rw [pyGet_eq_ok (x :: rest) 0 x ⟨by omega, by exact_mod_cast hpos⟩]
  have hidx : pyIdx (x :: rest).length 0 = 0 := by unfold pyIdx; simp
  rw [hidx, List.getD_cons_zero]

/-- Evaluation of FixedArmEnvironment construction when the example context
batch is non-empty and the reward-function list is non-empty (with any
supplied constraint-function list non-empty): it raises `ValueError` exactly
when the example batch's outer dimension differs from `batch_size`, and
otherwise succeeds with specs derived from the first example row, having
called the context sampler once, the first reward function once and — when
present — the first constraint function once. -/
theorem faInit_eval (ctxFn : Nat → List (List Int))
    (rewardFns : List (List Int → Int))
    (constraintFns : Option (List (List Int → Int))) (batchSize : Nat)
    (hex : ctxFn 0 ≠ [])
    (hrw : rewardFns ≠ [])
    (hcf : ∀ cfs, constraintFns = some cfs → cfs ≠ []) :
    faInit ctxFn rewardFns constraintFns batchSize =
      if (ctxFn 0).length ≠ batchSize then
        (.error .valueError, [FAFn.ctx])
      else
        (.ok { observationSpec := [((ctxFn 0).headD []).length],
               actionMax := (rewardFns.length : Int) - 1,
               rewardSpec := [],
               constraintSpec := constraintFns.map (fun _ => []) },
         [FAFn.ctx, FAFn.rew 0] ++
           (if constraintFns.isSome then [FAFn.con 0] else [])) := by
  obtain ⟨x0, xrest, hE⟩ : ∃ x0 xrest, ctxFn 0 = x0 :: xrest := by
    cases hc : ctxFn 0 with
    | nil => exact absurd hc hex
    | cons x0 xrest => exact ⟨x0, xrest, rfl⟩
  have hget : pyGet (ctxFn 0) 0 = .ok ((ctxFn 0).headD []) := by
    rw [hE]; exact pyGet_zero x0 xrest
  obtain ⟨f0, frest, hfr⟩ : ∃ f0 frest, rewardFns = f0 :: frest := by
    cases rewardFns with
    | nil => exact absurd rfl hrw
    | cons f0 frest => exact ⟨f0, frest, rfl⟩
  have hgetr : pyGet rewardFns 0 = .ok f0 := by
    rw [hfr]; exact pyGet_zero f0 frest
  by_cases hc : (ctxFn 0).length ≠ batchSize
  · rw [if_pos hc]
    simp only [faInit, hget]
    rw [if_pos hc]
  · rw [if_neg hc]
    cases hcfs : constraintFns with
    | none =>
        simp only [faInit, hget, hgetr, hcfs, Option.map_none, Option.isSome_none]
        rw [if_neg hc]
        rfl
    | some cfs =>
        obtain ⟨c0, crest, hcr⟩ : ∃ c0 crest, cfs = c0 :: crest := by
          cases hcc : cfs with
          | nil => exact absurd hcc (hcf cfs hcfs)
          | cons c0 crest => exact ⟨c0, crest, rfl⟩
        have hgetc : pyGet cfs 0 = .ok c0 := by
          rw [hcr]; exact pyGet_zero c0 crest
        simp only [faInit, hget, hgetr, hcfs, hgetc, Option.map_some,
          Option.isSome_some]
        rw [if_neg hc]
        rfl

/-- Counterexample to C6 as stated: with a context-sampling function whose
example batch is empty and `batch_size = 1`, the outer dimension (`0`) does
not equal the batch size, yet construction raises `IndexError` (from
`example_observation[0]` on line 85, evaluated before the batch-size check
on line 86), not the claimed `ValueError`. -/
theorem fixedArm_init_empty_batch_indexError :
    (faInit (fun _ => ([] : List (List Int))) [fun _ => 0] none 1).1 =
      .error .indexError ∧
    ([] : List (List Int)).length ≠ 1 ∧
    Except.error .indexError ≠
      (.error .valueError : Except PyErr FASpecs) :=
  ⟨rfl, by decide, by simp⟩

/-- C6 (amended): provided the example context batch is non-empty (and the
reward-function list, and any supplied constraint-function list, are
non-empty), FixedArmEnvironment construction raises `ValueError` if and
only if the example batch's outer dimension does not equal the configured
`batch_size`; on success the observation spec is derived from the first
row of the example batch. With an empty example batch, construction
instead raises `IndexError` while deriving the observation spec, before
the batch-size check runs. -/
theorem fixedArm_init_valueError_iff (ctxFn : Nat → List (List Int))
    (rewardFns : List (List Int → Int))
    (constraintFns : Option (List (List Int → Int))) (batchSize : Nat)
    (hex : ctxFn 0 ≠ [])
    (hrw : rewardFns ≠ [])
    (hcf : ∀ cfs, constraintFns = some cfs → cfs ≠ []) :
    ((faInit ctxFn rewardFns constraintFns batchSize).1 =
        .error .valueError ↔ (ctxFn 0).length ≠ batchSize) ∧
    (∀ specs, (faInit ctxFn rewardFns constraintFns batchSize).1 = .ok specs →
      specs.observationSpec = [((ctxFn 0).headD []).length]) := by
  rw [faInit_eval ctxFn rewardFns constraintFns batchSize hex hrw hcf]
  by_cases hc : (ctxFn 0).length ≠ batchSize
  · rw [if_pos hc]
    exact ⟨⟨fun _ => hc, fun _ => rfl⟩, fun specs hspecs => by simp at hspecs⟩
  · rw [if_neg hc]
    refine ⟨⟨fun h => by simp at h, fun h => absurd h hc⟩, ?_⟩
    intro specs hspecs
    simp only [Prod.fst] at hspecs
    cases hspecs
    rfl

/-- Witness for C6 (amended): example batch `[[5]]` with `batch_size = 1`
(outer dimensions equal): no `ValueError`, and the observation spec is the
shape of the first row. -/
theorem fixedArm_init_valueError_iff_witness :
    ((faInit (fun _ => [[5]]) [fun _ => 0] none 1).1 =
        .error .valueError ↔ ([[(5 : Int)]]).length ≠ 1) ∧
    (∀ specs, (faInit (fun _ => [[5]]) [fun _ => 0] none 1).1 = .ok specs →
      specs.observationSpec = [(([[(5 : Int)]]).headD []).length]) :=
  fixedArm_init_valueError_iff (fun _ => [[5]]) [fun _ => 0] none 1
    (by simp) (by simp) (fun cfs h => by simp at h)

/-- Counterexample to C7 as stated: construction does NOT invoke every
user-supplied function. A FixedArmEnvironment with two reward functions
constructs successfully yet calls the second reward function zero times
(its call log is exactly `[ctx, rew 0]`), and a PerArmEnvironment never
calls its reward function during construction (log
`[globalCtx, armCtx]`). -/
theorem init_leaves_functions_uninvoked :
    (faInit (fun _ => [[5]]) [fun _ => 0, fun _ => 1] none 1).1 =
      .ok { observationSpec := [1], actionMax := 1, rewardSpec := [],
            constraintSpec := none } ∧
    (faInit (fun _ => [[5]]) [fun _ => 0, fun _ => 1] none 1).2 =
      [FAFn.ctx, FAFn.rew 0] ∧
    ((faInit (fun _ => [[5]]) [fun _ => 0, fun _ => 1] none 1).2).count
      (FAFn.rew 1) = 0 ∧
    (paInit (fun _ => [1]) (fun _ => [2]) 3 List.sum none 1).2 =
      [PAFn.globalCtx, PAFn.armCtx] ∧
    ((paInit (fun _ => [1]) (fun _ => [2]) 3 List.sum none 1).2).count
      PAFn.rew = 0 :=
  ⟨rfl, rfl, rfl, rfl, rfl⟩

/-- C7 (amended): at construction time, FixedArmEnvironment invokes the
context-sampling function once, the first reward function once and — when
constraints are supplied — the first constraint function once, and invokes
no other reward/constraint function; PerArmEnvironment invokes the global
and arm context-sampling functions once each and the arm-count function
once when configured, and never invokes its reward function. -/
theorem init_call_log (ctxFn : Nat → List (List Int))
    (rewardFns : List (List Int → Int))
    (constraintFns : Option (List (List Int → Int))) (batchSize : Nat)
    (globalFn armFn : Nat → List Int) (maxN : Nat)
    (rewardFn : List Int → Int) (numActionsFn : Option (Nat → Int))
    (batchSize2 : Nat)
    (hex : ctxFn 0 ≠ [])
    (hlen : (ctxFn 0).length = batchSize)
    (hrw : rewardFns ≠ [])
    (hcf : ∀ cfs, constraintFns = some cfs → cfs ≠ []) :
    (faInit ctxFn rewardFns constraintFns batchSize).2 =
      [FAFn.ctx, FAFn.rew 0] ++
        (if constraintFns.isSome then [FAFn.con 0] else []) ∧
    (∀ i, 1 ≤ i →
      FAFn.rew i ∉ (faInit ctxFn rewardFns constraintFns batchSize).2) ∧
    (paInit globalFn armFn maxN rewardFn numActionsFn batchSize2).2 =
      [PAFn.globalCtx, PAFn.armCtx] ++
        (if numActionsFn.isSome then [PAFn.numActs] else []) ∧
    PAFn.rew ∉ (paInit globalFn armFn maxN rewardFn numActionsFn batchSize2).2 := by
  have hfa : (faInit ctxFn rewardFns constraintFns batchSize).2 =
      [FAFn.ctx, FAFn.rew 0] ++
        (if constraintFns.isSome then [FAFn.con 0] else []) := by
    rw [faInit_eval ctxFn rewardFns constraintFns batchSize hex hrw hcf,
      if_neg (by omega)]
  have hpa : (paInit globalFn armFn maxN rewardFn numActionsFn batchSize2).2 =
      [PAFn.globalCtx, PAFn.armCtx] ++
        (if numActionsFn.isSome then [PAFn.numActs] else []) := by
    cases numActionsFn <;> rfl
  refine ⟨hfa, ?_, hpa, ?_⟩
  · intro i hi hmem
    rw [hfa] at hmem
    cases constraintFns <;> simp at hmem <;> omega
  · intro hmem
    rw [hpa] at hmem
    cases numActionsFn <;> simp at hmem

/-- Witness for C7 (amended): concrete environments with a constraint
function and an arm-count function present, so both optional branches of
the log are exercised. -/
theorem init_call_log_witness :
    ((faInit (fun _ => [[5]]) [fun _ => 0] (some [fun _ => 1]) 1).2 =
      [FAFn.ctx, FAFn.rew 0] ++
        (if (some [fun (_ : List Int) => (1 : Int)]).isSome then [FAFn.con 0]
         else []) ∧
    (∀ i, 1 ≤ i →
      FAFn.rew i ∉ (faInit (fun _ => [[5]]) [fun _ => 0]
        (some [fun _ => 1]) 1).2) ∧
    (paInit (fun _ => [1]) (fun _ => [2]) 3 List.sum
        (some (fun _ => 5)) 1).2 =
      [PAFn.globalCtx, PAFn.armCtx] ++
        (if (some (fun (_ : Nat) => (5 : Int))).isSome then [PAFn.numActs]
         else []) ∧
    PAFn.rew ∉ (paInit (fun _ => [1]) (fun _ => [2]) 3 List.sum
      (some (fun _ => 5)) 1).2) :=
  init_call_log (fun _ => [[5]]) [fun _ => 0] (some [fun _ => 1]) 1
    (fun _ => [1]) (fun _ => [2]) 3 List.sum (some (fun _ => 5)) 1
    (by simp) rfl (by simp)
    (fun cfs h => by
      rw [Option.some_inj] at h
      rw [← h]
      simp)
